import Mathlib

/-!
Shallow embedding of the goes command dispatcher and pipeline evaluator
(package goes, file goes.go). Pure Lean translations of the list composer
(`MakeListFunc`), the pipeline composer (`ProcessPipeline` / `MakePipefun`),
the command executor's dispatch and redirection binding (`ProcessCommand`),
the here-document background writer, `ensureTerminated`, and `shift`.
Machine state (the dispatcher's `Status`, accumulated stdout, closer lists)
is passed explicitly; collaborators not defined in goes.go (the `parms`
extractor, the `shellutils` parser, `Block` implementations, the child
processes themselves) appear as oracles or as spec-modelled functions.
-/

/-- One parsed command: its tokens and its terminator word
(source: `shellutils.Cmdline`, with `Term.String()` inlined as a string). -/
structure Cmdline where
  cmds : List String
  term : String
deriving DecidableEq, Repr

/-- A sequence of cmdlines (source: `shellutils.List`). -/
structure CmdList where
  cmds : List Cmdline
deriving DecidableEq, Repr

/-- The dispatcher state visible to the list composer: the `Status` field,
the bytes written to the callable's inherited stdout, and a count of
assignments to `Status` (each `g.Status = ...` in the source bumps it). -/
structure GoesSt where
  status : Option String
  out : String
  writes : Nat
deriving DecidableEq, Repr

/-- An assignment `g.Status = e` in the source: sets the field and is
counted as one update. -/
def writeStatus (g : GoesSt) (e : Option String) : GoesSt :=
  { g with status := e, writes := g.writes + 1 }

/-- A pipeline runner paired with its terminator (source: type `piperun`,
fields `f` and `t`). -/
structure Piperun where
  f : GoesSt → GoesSt × Option String
  t : String

/-- A stage that calls a compiled function or a builtin closure: it returns
its error and never touches `Status` (source: `return f.RunFun(...)` at the
function path and `return builtin(args[1:]...)` at the builtin path of
`ProcessCommand`). -/
def funStage (res : Option String) : GoesSt → GoesSt × Option String :=
  fun g => (g, res)

/-- A stage that runs a registry command in-process via `g.Main`: `Main`
assigns `g.Status` at every return and the stage returns that error
(source: `return g.Main(args...)` together with `g.Status = err` inside
`Main`). -/
def mainStage (res : Option String) : GoesSt → GoesSt × Option String :=
  fun g => (writeStatus g res, res)

/-- The fork path of `ProcessCommand` after `x.Start()` (source lines with
`if err := x.Start(); ...` through `return nil`): a failed start returns a
wrapped error; with stdout unredirected (terminal stage) the parent waits,
the child's output `childOut` has gone to the inherited stdout and
`g.Status = err` records the wait result, then the closure returns nil;
with stdout redirected (mid-pipeline stage) a background waiter is
registered which discards the wait error apart from logging, so the closure
returns nil at once and `Status` is untouched (the child's output went to
the pipe, not the inherited stdout). -/
def forkStageRun (stdoutRedirected : Bool) (startErr : Option String)
    (childOut : String) (waitErr : Option String) :
    GoesSt → GoesSt × Option String :=
  fun g =>
    match startErr with
    | some e => (g, some ("child: " ++ e))
    | none =>
      if !stdoutRedirected then
        (writeStatus { g with out := g.out ++ childOut } waitErr, none)
      else
        (g, none)

/-- The short-circuit arming at the bottom of the `MakeListFunc` loop body:
on non-nil `Status` a trailing `&&` arms the skip, on nil `Status` a
trailing `||` arms it; otherwise the flag is left as it was. -/
def armSkip (g : GoesSt) (t : String) (sk : Bool) : Bool :=
  if g.status.isSome then (if t == "&&" then true else sk)
  else (if t == "||" then true else sk)

/-- One iteration of the `MakeListFunc` loop body: when the skip flag is
clear the runner executes and a non-nil returned error is assigned to
`Status` (`if err != nil { g.Status = err }`); when the flag is set nothing
runs and `err` keeps its previous value; then the arming check runs on the
current `Status` and this piperun's terminator. -/
def listStep (g : GoesSt) (err : Option String) (skipNext : Bool)
    (r : Piperun) : GoesSt × Option String × Bool :=
  if skipNext then (g, err, armSkip g r.t skipNext)
  else
    let p := r.f g
    let g2 := if p.2.isSome then writeStatus p.1 p.2 else p.1
    (g2, p.2, armSkip g2 r.t false)

/-- The `MakeListFunc` loop over the piperuns, threading state, the `err`
variable and the `skipNext` flag; the callable returns the last executed
runner's error. -/
def runList (g : GoesSt) (err : Option String) (skipNext : Bool) :
    List Piperun → GoesSt × Option String
  | [] => (g, err)
  | r :: rest =>
    let s := listStep g err skipNext r
    runList s.1 s.2.1 s.2.2 rest

/-- The callable composed by `MakeListFunc`, entered with `err = nil` and
`skipNext = false`. -/
def listfun (pipeline : List Piperun) (g : GoesSt) : GoesSt × Option String :=
  runList g none false pipeline

/-- The list `P1 && P2 || P3` for the input `false && echo yes || echo no`:
three single-command pipelines, each a terminal fork stage (`false` exits
with status 1 and prints nothing, each `echo` exits cleanly after printing
its line). -/
def falseEchoList : List Piperun :=
  [ { f := forkStageRun false none "" (some "exit status 1"), t := "&&" },
    { f := forkStageRun false none "yes\n" none, t := "||" },
    { f := forkStageRun false none "no\n" none, t := "" } ]

/-- Characters trimmed by `strings.TrimLeft(s, " \t")`. -/
def trimLeftSpaceTab (s : String) : String :=
  String.mk (s.toList.dropWhile (fun c => c == ' ' || c == '\t'))

/-- The here-document background writer of `ProcessCommand` (the goroutine
spawned for `<<` / `<<-`): each iteration reads one line from `Catline`
(the input list; exhaustion is the read error / EOF), stops before writing
when the line as read equals the label, otherwise trims (for `<<-`) and
writes the line followed by a newline (`fmt.Fprintln`). Returns the
sequence of writes to the pipe. -/
def heredocWriter (lbl : String) (trim : Bool) : List String → List String
  | [] => []
  | s :: rest =>
    if s == lbl then []
    else
      let s2 := if trim then trimLeftSpaceTab s else s
      (s2 ++ "\n") :: heredocWriter lbl trim rest

/-- Whether a terminator is a continuation, per the test in
`ensureTerminated` (`term != "||" && term != "&&" && term != "|"` negated). -/
def contTerm (t : String) : Bool :=
  t == "||" || t == "&&" || t == "|"

/-- The inner scan of `ensureTerminated`: walk the cmdlines updating `term`;
return `(false, term)` at the first non-continuation terminator (the early
`return &ls, nil`), or `(true, term)` after the loop with `term` holding
the last terminator seen (the empty string for an empty list). -/
def scanTerm (term : String) : List Cmdline → Bool × String
  | [] => (true, term)
  | cl :: rest =>
    if !(contTerm cl.term) then (false, cl.term) else scanTerm cl.term rest

/-- Whether `ensureTerminated` reaches the `shellutils.Parse` call on this
list (the scan ran off the end without an early return). -/
def needMoreInput (ls : CmdList) : Bool :=
  (scanTerm "" ls.cmds).1

/-- `ensureTerminated` with the parser as an oracle and explicit fuel for
the outer `for {}` loop: when the scan returns early the list is returned
unchanged; otherwise the parser is invoked with the continuation sentinel
`term + ">>"` and the returned cmdlines are appended before rescanning.
`none` models a parse error (or exhausted fuel). -/
def ensureTerminated (parse : String → Option CmdList) :
    Nat → CmdList → Option CmdList
  | 0, _ => none
  | fuel+1, ls =>
    let r := scanTerm "" ls.cmds
    if r.1 then
      match parse (r.2 ++ ">>") with
      | none => none
      | some newls => ensureTerminated parse fuel ⟨ls.cmds ++ newls.cmds⟩
    else some ls

/-- A parser oracle used as a concrete input; it returns a fixed
terminated cmdline, so any invocation of it visibly changes the list. -/
def markParse : String → Option CmdList :=
  fun _ => some ⟨[⟨["marker"], ""⟩]⟩

/-- The list for `a ; b &&`: the last cmdline carries the continuation
terminator `&&` while an earlier one carries `;`. -/
def semiAndList : CmdList :=
  ⟨[⟨["a"], ";"⟩, ⟨["b"], "&&"⟩]⟩

/-- An URL-collaborator call or pipe creation made by the redirection
binder (`url.Open` / `url.Create` / `url.Append` / `os.Pipe`). -/
inductive OpenOp
  | urlOpen (fn : String)
  | urlCreate (fn : String)
  | urlAppend (fn : String)
  | osPipe
deriving DecidableEq, Repr

/-- Modelled from the spec: the `parms` collaborator
(`parms.New(args, keys...)`), which lives in this repository outside the
given source file. Per spec §4.2 it extracts redirection parameters and
consumes them from argv: a token equal to a key takes the following token
as its value and both are removed; everything else is kept in order. -/
def parmsNew (keys : List String) : List String → List (String × String) × List String
  | [] => ([], [])
  | a :: rest =>
    if keys.contains a then
      match rest with
      | [] => ([(a, "")], [])
      | v :: rest2 =>
        let p := parmsNew keys rest2
        ((a, v) :: p.1, p.2)
    else
      let p := parmsNew keys rest
      (p.1, a :: p.2)

/-- Lookup in the extracted parameter map (`parm.ByName[key]`; absent keys
read as the empty string, matching Go's map zero value). -/
def parmGet (m : List (String × String)) (k : String) : String :=
  ((m.find? (fun p => p.1 == k)).map (fun p => p.2)).getD ""

/-- Result of binding stdout: the rewritten argv, the URL calls made, the
number of closers appended, whether the output is teed to the inherited
stdout, and whether stdout was replaced at all. -/
structure OutBind where
  args : List String
  opens : List OpenOp
  closersAdded : Nat
  tee : Bool
  redirected : Bool
deriving DecidableEq, Repr

/-- The stdout redirection binder of `ProcessCommand` (the block guarded by
`!g.isStdoutRedirected(stdout)`): extract `>`, `>>`, `>>>`, `>>>>` via
`parms.New`, then take the first non-empty of: `>` (create), `>>` (append),
`>>>` (create, tee via `io.MultiWriter(os.Stdout, wc)`), and — exactly as
in the source — a fourth branch that re-tests `>>` (append, tee), so the
extracted `>>>>` value is never consulted. Each taken branch appends one
closer. -/
def bindStdout (args : List String) : OutBind :=
  let p := parmsNew [">", ">>", ">>>", ">>>>"] args
  let m := p.1
  if (parmGet m ">").length > 0 then
    ⟨p.2, [.urlCreate (parmGet m ">")], 1, false, true⟩
  else if (parmGet m ">>").length > 0 then
    ⟨p.2, [.urlAppend (parmGet m ">>")], 1, false, true⟩
  else if (parmGet m ">>>").length > 0 then
    ⟨p.2, [.urlCreate (parmGet m ">>>")], 1, true, true⟩
  else if (parmGet m ">>").length > 0 then
    ⟨p.2, [.urlAppend (parmGet m ">>")], 1, true, true⟩
  else
    ⟨p.2, [], 0, false, false⟩

/-- Result of binding stdin: the rewritten argv, the calls made, the number
of closers appended, and the spawned here-doc writer's label and trim flag
when one was started. -/
structure InBind where
  args : List String
  opens : List OpenOp
  closersAdded : Nat
  heredoc : Option (String × Bool)
deriving DecidableEq, Repr

/-- The stdin redirection binder of `ProcessCommand` (the block guarded by
`!g.isStdinRedirected(stdin)`): extract `<`, `<<`, `<<-`; `<` opens the
file for reading and appends one closer; otherwise a non-empty `<<` (or,
failing that, `<<-` with the trim flag) creates an `os.Pipe`, appends the
read end as one closer, and spawns the here-doc writer. -/
def bindStdin (args : List String) : InBind :=
  let p := parmsNew ["<", "<<", "<<-"] args
  let m := p.1
  if (parmGet m "<").length > 0 then
    ⟨p.2, [.urlOpen (parmGet m "<")], 1, none⟩
  else if (parmGet m "<<").length > 0 then
    ⟨p.2, [.osPipe], 1, some (parmGet m "<<", false)⟩
  else if (parmGet m "<<-").length > 0 then
    ⟨p.2, [.osPipe], 1, some (parmGet m "<<-", true)⟩
  else
    ⟨p.2, [], 0, none⟩

/-- The three classification bits read via `cmd.WhatKind` that the executor
consults. -/
structure Kind where
  isDaemon : Bool
  isDontFork : Bool
  isCantPipe : Bool
deriving DecidableEq, Repr

/-- The dispatcher data consulted by the executor's dispatch: the function
table, the registry with each command's kind, the builtin table, `argv0`
(`os.Args[0]`) and the `inTest` flag. -/
structure GoesReg where
  functions : List String
  byName : List (String × Kind)
  builtins : List String
  argv0 : String
  inTest : Bool

/-- How one invocation of the `ProcessCommand` closure resolves. -/
inductive StageResult
  | funCall (name : String)
  | daemonErr (name : String)
  | cantPipeErr (name : String)
  | inProcess (args : List String)
  | forked (args : List String) (heredoc : Option (String × Bool))
  | builtinCall (name : String) (rest : List String)
  | notFound (name : String)
deriving DecidableEq, Repr

/-- A stage invocation outcome together with every URL/pipe call it made
and every closer it appended. -/
structure RunOutcome where
  result : StageResult
  opens : List OpenOp
  closersAdded : Nat
deriving DecidableEq, Repr

/-- Registry lookup (`g.ByName[name]`), yielding the command's kind. -/
def lookupKind (byName : List (String × Kind)) (n : String) : Option Kind :=
  (byName.find? (fun p => p.1 == n)).map (fun p => p.2)

/-- The dispatch performed by the `ProcessCommand` closure from
`name := args[0]` on (args is `name :: rest` here): function table first;
then registry — daemon error, then `can't pipe` when any stream is
redirected and the kind is cant-pipe, then in-process `Main` when
dont-fork / in-test / name equals argv0, else the fork path which first
runs the stdin and stdout binders (each skipped when the corresponding
stream is already redirected); then builtins; else command-not-found.
Every early return happens before any binder call, so it reports no opens
and no closers. -/
def runStage (g : GoesReg) (stdinR stdoutR stderrR : Bool)
    (name : String) (rest : List String) : RunOutcome :=
  if g.functions.contains name then ⟨.funCall name, [], 0⟩
  else
    match lookupKind g.byName name with
    | some k =>
      if k.isDaemon then ⟨.daemonErr name, [], 0⟩
      else if (stdinR || stdoutR || stderrR) && k.isCantPipe then
        ⟨.cantPipeErr name, [], 0⟩
      else if k.isDontFork || g.inTest || name == g.argv0 then
        ⟨.inProcess (name :: rest), [], 0⟩
      else
        let ib := if !stdinR then bindStdin (name :: rest)
                  else ⟨name :: rest, [], 0, none⟩
        let ob := if !stdoutR then bindStdout ib.args
                  else ⟨ib.args, [], 0, false, false⟩
        ⟨.forked ob.args ib.heredoc, ib.opens ++ ob.opens,
          ib.closersAdded + ob.closersAdded⟩
    | none =>
      if g.builtins.contains name then ⟨.builtinCall name rest, [], 0⟩
      else ⟨.notFound name, [], 0⟩

/-- `strings.HasPrefix(n, tok)` on the underlying characters. -/
def strHasPref : List Char → List Char → Bool
  | [], _ => true
  | _ :: _, [] => false
  | p :: ps, c :: cs => p == c && strHasPref ps cs

/-- Whether registry name `n` has `tok` as a prefix. -/
def hasPref (tok n : String) : Bool :=
  strHasPref tok.toList n.toList

/-- The number of registry names having `tok` as a prefix (the `matches`
counter of `shift`). -/
def prefCount (names : List String) (tok : String) : Nat :=
  (names.filter (fun n => hasPref tok n)).length

/-- The last registry name (in iteration order) having `tok` as a prefix
(the `last` variable of `shift`). -/
def lastPref (names : List String) (tok : String) : String :=
  (names.filter (fun n => hasPref tok n)).getLastD ""

/-- The scan of `Goes.shift` with the already-visited tokens accumulated in
`pre`: at each position, an exact registry hit rotates the preceding
tokens after it (`copy(args[1:i+1], args[:i]); args[0] = name`, which on
slices is exactly `tok :: pre ++ rest`); otherwise a token that is a
prefix of exactly one registry name rotates the same way with the full
name substituted at the front; otherwise move on. No hit leaves args
unchanged and yields false. -/
def shiftGo (reg : List String) (pre : List String) :
    List String → Bool × List String
  | [] => (false, pre)
  | tok :: rest =>
    if reg.contains tok then (true, tok :: (pre ++ rest))
    else if prefCount reg tok == 1 then
      (true, lastPref reg tok :: (pre ++ rest))
    else shiftGo reg (pre ++ [tok]) rest

/-- `Goes.shift` on an argv, returning the rotation result and the rewritten
argv (the source mutates args in place and returns the Bool). -/
def shift (reg : List String) (args : List String) : Bool × List String :=
  shiftGo reg [] args

/-- A runner recorded while composing one pipeline: either the
`ProcessCommand` closure for a cmdline, or a runner returned by a
`Blocker`'s `Block` call (identified by an opaque id). -/
inductive StageTag
  | cmd (cl : Cmdline)
  | blockRun (id : Nat)
deriving DecidableEq, Repr

/-- The environment `ProcessPipeline` consults: which registry names are
`Blocker`s, and the `Block` oracle returning the residual list and a runner
id (`none` models a `Block` error). -/
structure BlockEnv where
  blockers : List String
  block : CmdList → Option (CmdList × Nat)

/-- Outcome of the `ProcessPipeline` loop. -/
inductive PipeOut
  | done (residual : List Cmdline) (term : String) (stages : List StageTag)
  | blockErr
  | indexOOB
  | fuelOut
deriving DecidableEq, Repr

/-- The `ProcessPipeline` loop (`for len(ls.Cmds) != 0 && !isLast`): take
the head cmdline and its terminator; a head whose command is a `Blocker`
delegates to `Block`, after which the code unconditionally reads
`ls.Cmds[0]` of the residual — out of bounds when the residual is empty —
takes that cmdline's terminator, drops the cmdline without running it, and
appends the blocker's runner; otherwise the head is compiled by
`ProcessCommand` and consumed. A terminator other than `|` ends the loop
(`isLast`). `indexOOB` also models the `cl.Cmds[0]` access on a cmdline
with no tokens. -/
def ppLoop (env : BlockEnv) :
    Nat → List Cmdline → List StageTag → String → PipeOut
  | 0, _, _, _ => .fuelOut
  | _+1, [], acc, term => .done [] term acc
  | fuel+1, cl :: rest, acc, _ =>
    match cl.cmds with
    | [] => .indexOOB
    | name :: _ =>
      if env.blockers.contains name then
        match env.block ⟨cl :: rest⟩ with
        | none => .blockErr
        | some (newls, stg) =>
          match newls.cmds with
          | [] => .indexOOB
          | cl2 :: rest2 =>
            if cl2.term == "|" then
              ppLoop env fuel rest2 (acc ++ [.blockRun stg]) cl2.term
            else .done rest2 cl2.term (acc ++ [.blockRun stg])
      else
        if cl.term == "|" then
          ppLoop env fuel rest (acc ++ [.cmd cl]) cl.term
        else .done rest cl.term (acc ++ [.cmd cl])

/-- `ProcessPipeline` entry: the loop starts with an empty pipeline and the
zero-valued terminator word. -/
def processPipeline (env : BlockEnv) (fuel : Nat) (ls : CmdList) : PipeOut :=
  ppLoop env fuel ls.cmds [] ""

/-- A concrete pipeline environment whose single blocker returns an empty
residual list. -/
def emptyResidualEnv : BlockEnv :=
  { blockers := ["w"], block := fun _ => some (⟨[]⟩, 7) }

/-- One stage as seen by the composed pipeline callable: the closers it
appends to the shared list while running, and its returned error. -/
structure PipeStage where
  newClosers : List Nat
  run : Option String
deriving DecidableEq, Repr

/-- The stage loop of the `MakePipefun` callable: run the stages in order,
accumulating the closers each appends; stop at the first stage error
(pipe allocation is modelled as always succeeding). Returns the closer
list as it stands when the callable returns, and the propagated error. -/
def runPipeStages (closers : List Nat) : List PipeStage → List Nat × Option String
  | [] => (closers, none)
  | s :: rest =>
    let cs := closers ++ s.newClosers
    match s.run with
    | some e => (cs, some e)
    | none => runPipeStages cs rest

/-- The deferred drain of `MakePipefun`
(`for _, c := range *closers { c.Close() }`): the closers are closed by a
forward range over the slice, so the sequence of `Close` calls is the list
itself in order of appendage. -/
def drainOrder (closers : List Nat) : List Nat :=
  match closers with
  | [] => []
  | c :: rest => c :: drainOrder rest

/-- The sequence of `Close` calls observed when the composed pipeline
callable returns. -/
def pipefunCloseOrder (pipeline : List PipeStage) : List Nat :=
  drainOrder (runPipeStages [] pipeline).1

/-! Theorems -/

lemma drainOrder_eq (cs : List Nat) : drainOrder cs = cs := by
  induction cs with
  | nil => rfl
  | cons c rest ih => simp [drainOrder, ih]

lemma scanTerm_fst (t : String) (cls : List Cmdline) :
    (scanTerm t cls).1 = cls.all (fun cl => contTerm cl.term) := by
  induction cls generalizing t with
  | nil => rfl
  | cons cl rest ih =>
    cases h : contTerm cl.term with
    | false => simp [scanTerm, h]
    | true => simp [scanTerm, h, ih]

/-- Claim C1 (code bug, evaluation at the failing input): for
`false && echo yes || echo no` the callable composed by `MakeListFunc`
produces empty stdout — not `no\n` — and leaves `Status` non-nil: after
`false` fails and its `&&` arms the skip, the skipped `echo yes` cannot
disarm it (the only reset of `skipNext` sits inside the not-skipped
branch), so `echo no` is skipped as well. -/
theorem makeListFunc_false_echo_eval :
    listfun falseEchoList ⟨none, "", 0⟩ =
      (⟨some "exit status 1", "", 1⟩, none) ∧ ("" : String) ≠ "no\n" :=
  ⟨rfl, by decide⟩

/-- Claim C4 (counterexample): a list whose single executed stage is a
function call that succeeds updates `Status` zero times, not exactly once —
the dispatcher state (here holding a prior error) is returned untouched,
with the update counter still at zero. -/
theorem status_update_cex :
    (runList ⟨some "prior", "", 0⟩ none false
        [{ f := funStage none, t := "" }]).1 = ⟨some "prior", "", 0⟩ ∧
      (0 : Nat) ≠ 1 :=
  ⟨rfl, by decide⟩

/-- Claim C4 (amended): a stage skipped by short-circuit leaves the
dispatcher state — `Status` included — untouched; an executed function or
builtin stage that succeeds also leaves it untouched (zero updates); when
an executed stage returns an error the list callable writes `Status` once;
a terminal forked child writes `Status` exactly once (from `Wait`) and
returns nil; a mid-pipeline forked child never writes it; and an
in-process command that fails yields two writes (one inside `Main`, one in
the list callable) — so executed stages update `Status` zero, one, or two
times depending on their dispatch path, not exactly once. -/
theorem status_update_amended :
    (∀ (g : GoesSt) (err : Option String) (r : Piperun),
        (listStep g err true r).1 = g) ∧
    (∀ (g : GoesSt) (err : Option String) (t : String),
        (listStep g err false ⟨funStage none, t⟩).1 = g) ∧
    (∀ (g : GoesSt) (err : Option String) (t e : String),
        (listStep g err false ⟨funStage (some e), t⟩).1 =
          writeStatus g (some e)) ∧
    (∀ (g : GoesSt) (co : String) (w : Option String),
        forkStageRun false none co w g =
          (writeStatus { g with out := g.out ++ co } w, none)) ∧
    (∀ (g : GoesSt) (co : String) (w : Option String),
        forkStageRun true none co w g = (g, none)) ∧
    (∀ (g : GoesSt) (err : Option String) (t e : String),
        (listStep g err false ⟨mainStage (some e), t⟩).1.writes =
          g.writes + 2) :=
  ⟨fun _ _ _ => rfl, fun _ _ _ => rfl, fun _ _ _ _ => rfl,
    fun _ _ _ => rfl, fun _ _ _ => rfl, fun _ _ _ _ => rfl⟩

/-- Claim C9: a fork-path stage whose stdout is redirected (every
non-terminal pipeline stage) returns nil once the child has started,
whatever the child's eventual wait result, and leaves the dispatcher
state — so also `Status` — untouched; consequently the composed list
callable behaves identically for any two exit statuses of such a child, so
a mid-pipeline child failure can never trigger `&&`/`||`
short-circuiting. -/
theorem midPipeline_fork_discards_wait :
    ∀ (co : String) (w1 w2 : Option String) (g : GoesSt)
      (err : Option String) (sk : Bool) (t : String) (rest : List Piperun),
      forkStageRun true none co w1 g = (g, none) ∧
      runList g err sk
          ({ f := forkStageRun true none co w1, t := t } :: rest) =
        runList g err sk
          ({ f := forkStageRun true none co w2, t := t } :: rest) := by
  intro co w1 w2 g err sk t rest
  refine ⟨rfl, ?_⟩
  cases sk <;> rfl

/-- Claim C2 (counterexample): two pipeline stages appending closers 0 then
1 — the deferred drain closes them in append order `[0, 1]`, not in the
LIFO order `[1, 0]` the claim states. -/
theorem closers_drain_cex :
    pipefunCloseOrder [⟨[0], none⟩, ⟨[1], none⟩] = [0, 1] ∧
      ([0, 1] : List Nat) ≠ [1, 0] :=
  ⟨rfl, by decide⟩

/-- Claim C2 (amended): each opened redirection source or sink contributes
exactly one closer (the binders append as many closers as calls they
make), and when the composed pipeline callable returns the closer list is
drained, every closer invoked exactly once, in FIFO order — the order of
appendage, first appended closed first (the drain sequence is the closer
list itself). -/
theorem closers_drain_amended :
    (∀ cs : List Nat, drainOrder cs = cs) ∧
    (∀ args : List String,
        (bindStdout args).closersAdded = (bindStdout args).opens.length) ∧
    (∀ args : List String,
        (bindStdin args).closersAdded = (bindStdin args).opens.length) ∧
    pipefunCloseOrder [⟨[2], none⟩, ⟨[3], none⟩] = [2, 3] := by
  refine ⟨drainOrder_eq, ?_, ?_, rfl⟩
  · intro args
    simp only [bindStdout]
    split_ifs <;> rfl
  · intro args
    simp only [bindStdin]
    split_ifs <;> rfl

/-- Claim C5 (code bug, evaluation at the failing input): with both
`> /tmp/x` and `>>> /tmp/y` present, `>` wins, `/tmp/x` is opened with
`url.Create` and exactly one closer is appended; but with only `>>>> FILE`
present nothing is opened, nothing is teed and no closer is appended — the
source's fourth branch re-tests `>>` instead of `>>>>`, so the extracted
`>>>>` value is never used. -/
theorem bindStdout_eval :
    bindStdout ["somecmd", ">", "/tmp/x", ">>>", "/tmp/y"] =
      ⟨["somecmd"], [.urlCreate "/tmp/x"], 1, false, true⟩ ∧
    bindStdout ["somecmd", ">>>>", "FILE"] =
      ⟨["somecmd"], [], 0, false, false⟩ :=
  ⟨rfl, rfl⟩

/-- Claim C3 (code bug, evaluation at the failing input): the here-doc
writer stops on the first line read that is exactly equal to the label
and, for `<<-`, trims only leading spaces and tabs from the lines it
writes; but because the equality test runs before trimming, the
tab-indented line `\tEND` does not terminate `<<-END`: it is trimmed and
written, so the input lines `\thello`, `\tEND` yield the writes `hello\n`,
`END\n` (stdout `hello\nEND\n` for `cat`), not `hello\n` alone as
claimed. -/
theorem heredoc_eval :
    heredocWriter "END" true ["\thello", "\tEND"] = ["hello\n", "END\n"] ∧
    heredocWriter "END" true ["\thello", "END"] = ["hello\n"] ∧
    heredocWriter "END" false ["a", "END", "b"] = ["a\n"] ∧
    trimLeftSpaceTab " \t\x0bx" = "\x0bx" ∧
    (["hello\n", "END\n"] : List String) ≠ ["hello\n"] :=
  ⟨rfl, rfl, rfl, rfl, by decide⟩

/-- Claim C6 (counterexample): in the list `a ; b &&` the last cmdline's
terminator is the continuation `&&`, yet `ensureTerminated` returns the
list unchanged without ever invoking the parser (the scan already returned
at the `;`): run here against a parser oracle whose every answer would
visibly extend the list. -/
theorem ensureTerminated_cex :
    needMoreInput semiAndList = false ∧
    ensureTerminated markParse 5 semiAndList = some semiAndList ∧
    semiAndList.cmds.getLast?.map Cmdline.term = some "&&" :=
  ⟨rfl, rfl, rfl⟩

/-- Claim C6 (amended): `ensureTerminated` invokes the parser for more
input iff EVERY cmdline's terminator in the list is one of `&&`, `||`, `|`
(vacuously so for the empty list) — not merely the last one's; whenever
some cmdline carries a non-continuation terminator the list is returned
unchanged. -/
theorem ensureTerminated_amended :
    (∀ ls : CmdList,
        needMoreInput ls = true ↔
          ls.cmds.all (fun cl => contTerm cl.term) = true) ∧
    (∀ (parse : String → Option CmdList) (fuel : Nat) (ls : CmdList),
        needMoreInput ls = false →
        ensureTerminated parse (fuel + 1) ls = some ls) := by
  constructor
  · intro ls
    rw [needMoreInput, scanTerm_fst]
  · intro parse fuel ls h
    rw [needMoreInput] at h
    unfold ensureTerminated
    simp [h]

/-- Concrete instance of the second part of `ensureTerminated_amended`. -/
theorem ensureTerminated_amended_witness :
    ensureTerminated markParse 1 semiAndList = some semiAndList :=
  ensureTerminated_amended.2 markParse 0 semiAndList (by decide)

/-- Claim C7 (counterexample): a registry command classified both IsDaemon
and IsCantPipe, invoked with a redirected stream, fails with the daemon
error, not with the cant-pipe error — the daemon check precedes the
cant-pipe check in `ProcessCommand`. -/
theorem cantPipe_cex :
    runStage ⟨[], [("d", ⟨true, false, true⟩)], [], "goes", false⟩
        true false false "d" [] = ⟨.daemonErr "d", [], 0⟩ ∧
      StageResult.daemonErr "d" ≠ StageResult.cantPipeErr "d" :=
  ⟨rfl, by decide⟩

/-- Claim C7 (amended): every registry command classified IsCantPipe and
not IsDaemon (and not shadowed by a function-table entry of the same
name), whose stage is invoked with any redirected stream, fails with the
cant-pipe error, and this failure occurs before any redirection target is
opened: the outcome records no URL Open/Create/Append call and no appended
closer. -/
theorem cantPipe_amended :
    ∀ (g : GoesReg) (k : Kind) (inR outR errR : Bool) (name : String)
      (rest : List String),
      name ∉ g.functions →
      lookupKind g.byName name = some k →
      k.isDaemon = false →
      k.isCantPipe = true →
      (inR || outR || errR) = true →
      runStage g inR outR errR name rest = ⟨.cantPipeErr name, [], 0⟩ := by
  intro g k inR outR errR name rest h1 h2 h3 h4 h5
  simp [runStage, h1, h2, h3, h4, h5]

/-- Concrete instance of `cantPipe_amended`. -/
theorem cantPipe_amended_witness :
    runStage ⟨[], [("foo", ⟨false, false, true⟩)], [], "goes", false⟩
        false true false "foo" [] = ⟨.cantPipeErr "foo", [], 0⟩ :=
  cantPipe_amended _ ⟨false, false, true⟩ false true false "foo" []
    (by decide) rfl rfl rfl rfl

/-- Claim C8 (counterexample): with registry entries {ip, link, list},
`shift` on `ip -s li` returns at the exact match `ip` in position 0 and
leaves the argv unchanged, and on the remainder `-s li` it finds `li` an
ambiguous abbreviation (two registry names extend it), making no change —
so normalization never produces `ip link -s`. -/
theorem shift_cex :
    shift ["ip", "link", "list"] ["ip", "-s", "li"] =
      (true, ["ip", "-s", "li"]) ∧
    shift ["ip", "link", "list"] ["-s", "li"] = (false, ["-s", "li"]) ∧
    prefCount ["ip", "link", "list"] "li" = 2 ∧
    (["ip", "-s", "li"] : List String) ≠ ["ip", "link", "-s"] :=
  ⟨rfl, rfl, rfl, by decide⟩

/-- Claim C8 (amended): `shift` finds the first position whose token
matches a registry entry exactly or abbreviates exactly one registry name
and rotates the preceding tokens after it, exact match beating
abbreviation at each position and only a single match counting as
unambiguous; an exact match in position 0 — such as `ip` in `ip -s li`
against {ip, link, list} — therefore leaves the argv unchanged, and `li`
alone is ambiguous against that registry, so normalization yields
`ip -s li`, not `ip link -s`. -/
theorem shift_amended :
    (∀ (reg : List String) (a : String) (rest : List String),
        a ∈ reg →
        shiftGo reg [] (a :: rest) = (true, a :: rest)) ∧
    shift ["ip", "link", "list"] ["ip", "-s", "li"] =
      (true, ["ip", "-s", "li"]) ∧
    shift ["ip", "link", "list"] ["-s", "li"] = (false, ["-s", "li"]) := by
  refine ⟨?_, rfl, rfl⟩
  intro reg a rest h
  simp [shiftGo, h]

/-- Concrete instance of the first part of `shift_amended`. -/
theorem shift_amended_witness :
    "ip" ∈ ["ip", "link", "list"] ∧
      shiftGo ["ip", "link", "list"] [] ["ip", "-s", "li"] =
        (true, ["ip", "-s", "li"]) :=
  ⟨by decide,
    shift_amended.1 ["ip", "link", "list"] "ip" ["-s", "li"] (by decide)⟩

/-- Claim C10: after a `Blocker` dispatch, `ProcessPipeline`
unconditionally reads the first cmdline of the residual list returned by
`Block`: an empty residual makes the `ls.Cmds[0]` access out of bounds (a
panic), and a non-empty residual has its head consumed for its terminator
only — the head cmdline is dropped without being executed and only the
blocker's runner is appended — so the error branch is reachable unless
every `Blocker` guarantees a non-empty residual. -/
theorem blocker_residual :
    ∀ (env : BlockEnv) (fuel : Nat) (cl : Cmdline) (rest : List Cmdline)
      (acc : List StageTag) (t0 : String) (n : String) (ws : List String)
      (stg : Nat),
      cl.cmds = n :: ws →
      n ∈ env.blockers →
      ((env.block ⟨cl :: rest⟩ = some (⟨[]⟩, stg) →
          ppLoop env (fuel + 1) (cl :: rest) acc t0 = .indexOOB) ∧
        (∀ (cl2 : Cmdline) (rest2 : List Cmdline),
          env.block ⟨cl :: rest⟩ = some (⟨cl2 :: rest2⟩, stg) →
          (cl2.term == "|") = false →
          ppLoop env (fuel + 1) (cl :: rest) acc t0 =
            .done rest2 cl2.term (acc ++ [.blockRun stg]))) := by
  intro env fuel cl rest acc t0 n ws stg hcl hb
  constructor
  · intro hblock
    simp [ppLoop, hcl, hb, hblock]
  · intro cl2 rest2 hblock ht
    simp [ppLoop, hcl, hb, hblock, ht]

/-- Concrete instance of the first part of `blocker_residual`: a blocker
whose `Block` returns an empty residual drives `ProcessPipeline` into the
out-of-bounds access. -/
theorem blocker_residual_witness :
    ppLoop emptyResidualEnv 1 [⟨["w"], ";"⟩] [] "" = PipeOut.indexOOB :=
  (blocker_residual emptyResidualEnv 0 ⟨["w"], ";"⟩ [] [] "" "w" [] 7 rfl
      (by decide)).1 rfl
